import Mathlib

/-!
Verification of the drift-detection orchestration core of the
amazon-sagemaker-drift-detection repository: the ModelRegistry resolver
(src/deployment_pipeline/infra/model_registry.py), the PipelineGate
(src/lambda/build/lambda_pipeline_change.py) and the PipelineRunner
(src/lambda/build/lambda_start_pipeline.py), shallowly embedded in Lean.

The SageMaker list_model_packages API is modelled as a paginated source:
a list of pages, where a continuation token is present exactly while
further pages remain.  Python exceptions are modelled with Except.
-/

/-- One entry of a ModelPackageSummaryList as consumed by ModelRegistry. -/
structure ModelPackage where
  version : Nat
  arn : String
  approvalStatus : String
  creationTime : Int
  deriving Repr, DecidableEq

/-- Number of packages in a list carrying a given ModelPackageVersion. -/
def countV (l : List ModelPackage) (v : Nat) : Nat :=
  (l.filter (fun p => p.version == v)).length

/-- Pagination loop of ModelRegistry.get_latest_approved_packages
(model_registry.py lines 94-101): keep fetching pages while fewer than
max_results packages are collected and a NextToken remains. -/
def collectLatest (maxResults : Nat) (acc : List ModelPackage) :
    List (List ModelPackage) → List ModelPackage
  | [] => acc
  | p :: rest =>
    if acc.length < maxResults then collectLatest maxResults (acc ++ p) rest
    else acc

/-- Packages accumulated by get_latest_approved_packages before the emptiness
check: the first page is fetched unconditionally, then the loop runs. -/
def collectedPackages (maxResults : Nat) (pages : List (List ModelPackage)) :
    List ModelPackage :=
  match pages with
  | [] => []
  | p :: rest => collectLatest maxResults p rest

/-- ModelRegistry.get_latest_approved_packages (model_registry.py lines
62-117).  The paginated provider response is passed in as pages; the
creation_time_after argument only matters here through its presence, which
gates the empty-result error (line 104). -/
def get_latest_approved_packages (groupName : String) (maxResults : Nat)
    (creationTimeAfter : Option Int) (pages : List (List ModelPackage)) :
    Except String (List ModelPackage) :=
  if (collectedPackages maxResults pages).length = 0 ∧ creationTimeAfter = none then
    Except.error ("No approved packages found for: " ++ groupName)
  else
    Except.ok ((collectedPackages maxResults pages).take maxResults)

/-- C1: with no creation_time_after filter, an empty collection raises; with
an explicit filter, an empty collection is returned as an empty list. -/
theorem getLatest_empty_asymmetry (groupName : String) (maxResults : Nat)
    (creationTimeAfter : Option Int) (pages : List (List ModelPackage))
    (h : collectedPackages maxResults pages = []) :
    (creationTimeAfter = none →
      get_latest_approved_packages groupName maxResults creationTimeAfter pages =
        Except.error ("No approved packages found for: " ++ groupName))
    ∧ (∀ t : Int, creationTimeAfter = some t →
      get_latest_approved_packages groupName maxResults creationTimeAfter pages =
        Except.ok []) := by
  constructor
  · intro hnone
    simp [get_latest_approved_packages, h, hnone]
  · intro t ht
    simp [get_latest_approved_packages, h, ht]

/-- Witness for C1 at a concrete empty source. -/
theorem getLatest_empty_asymmetry_witness :
    get_latest_approved_packages "group" 2 none [[]] =
      Except.error ("No approved packages found for: " ++ "group")
    ∧ get_latest_approved_packages "group" 2 (some 5) [[]] = Except.ok [] :=
  ⟨(getLatest_empty_asymmetry "group" 2 none [[]] rfl).1 rfl,
   (getLatest_empty_asymmetry "group" 2 (some 5) [[]] rfl).2 5 rfl⟩

/-- Whatever the loop collects is a front segment of the already collected
packages followed by the remaining pages joined together. -/
theorem collectLatest_front (maxResults : Nat) (pages : List (List ModelPackage)) :
    ∀ acc : List ModelPackage, collectLatest maxResults acc pages <+: acc ++ pages.flatten := by
  induction pages with
  | nil => intro acc; simp [collectLatest]
  | cons p rest ih =>
    intro acc
    simp only [collectLatest, List.flatten_cons]
    split
    · calc collectLatest maxResults (acc ++ p) rest
          <+: (acc ++ p) ++ rest.flatten := ih (acc ++ p)
        _ = acc ++ (p ++ rest.flatten) := by rw [List.append_assoc]
    · exact List.prefix_append acc (p ++ List.flatten rest)

/-- Everything collected comes, in order, from the upstream pages. -/
theorem collectedPackages_front (maxResults : Nat) (pages : List (List ModelPackage)) :
    collectedPackages maxResults pages <+: pages.flatten := by
  cases pages with
  | nil => simp [collectedPackages]
  | cons p rest =>
    have h := collectLatest_front maxResults rest p
    simpa [collectedPackages, List.flatten_cons] using h

/-- A successful call always returns the collected packages truncated to
max_results. -/
theorem getLatest_ok_res (groupName : String) (maxResults : Nat)
    (creationTimeAfter : Option Int) (pages : List (List ModelPackage))
    (res : List ModelPackage)
    (h : get_latest_approved_packages groupName maxResults creationTimeAfter pages =
      Except.ok res) :
    res = (collectedPackages maxResults pages).take maxResults := by
  unfold get_latest_approved_packages at h
  split at h
  · exact absurd h (by simp)
  · simpa using (Except.ok.inj h).symm

/-- C5: a successful result has at most max_results packages, every one of
them Approved, ordered by creation time descending, provided the upstream
source only serves Approved packages in descending creation-time order. -/
theorem getLatest_bounded_approved_sorted (groupName : String) (maxResults : Nat)
    (creationTimeAfter : Option Int) (pages : List (List ModelPackage))
    (res : List ModelPackage)
    (hk : 1 ≤ maxResults)
    (happr : ∀ p ∈ pages.flatten, p.approvalStatus = "Approved")
    (hsort : pages.flatten.Pairwise (fun a b => b.creationTime ≤ a.creationTime))
    (hres : get_latest_approved_packages groupName maxResults creationTimeAfter pages =
      Except.ok res) :
    res.length ≤ maxResults
    ∧ (∀ p ∈ res, p.approvalStatus = "Approved")
    ∧ res.Pairwise (fun a b => b.creationTime ≤ a.creationTime) := by
  have hr := getLatest_ok_res groupName maxResults creationTimeAfter pages res hres
  have hsub : List.Sublist res pages.flatten := by
    rw [hr]
    exact ((List.take_prefix maxResults _).trans
      (collectedPackages_front maxResults pages)).sublist
  refine ⟨?_, ?_, ?_⟩
  · rw [hr, List.length_take]
    exact Nat.min_le_left _ _
  · intro p hp
    exact happr p (hsub.subset hp)
  · exact hsort.sublist hsub

/-- Witness for C5 on a source paginated one package per page. -/
theorem getLatest_bounded_approved_sorted_witness :
    get_latest_approved_packages "group" 2 none
        [[⟨3, "arn-3", "Approved", 30⟩], [⟨2, "arn-2", "Approved", 20⟩],
         [⟨1, "arn-1", "Approved", 10⟩]] =
      Except.ok [⟨3, "arn-3", "Approved", 30⟩, ⟨2, "arn-2", "Approved", 20⟩]
    ∧ [(⟨3, "arn-3", "Approved", 30⟩ : ModelPackage), ⟨2, "arn-2", "Approved", 20⟩].length ≤ 2
    ∧ (⟨3, "arn-3", "Approved", 30⟩ : ModelPackage).approvalStatus = "Approved"
    ∧ (⟨2, "arn-2", "Approved", 20⟩ : ModelPackage).approvalStatus = "Approved"
    ∧ (⟨2, "arn-2", "Approved", 20⟩ : ModelPackage).creationTime ≤
        (⟨3, "arn-3", "Approved", 30⟩ : ModelPackage).creationTime := by
  have h := getLatest_bounded_approved_sorted "group" 2 none
    [[⟨3, "arn-3", "Approved", 30⟩], [⟨2, "arn-2", "Approved", 20⟩],
     [⟨1, "arn-1", "Approved", 10⟩]]
    [⟨3, "arn-3", "Approved", 30⟩, ⟨2, "arn-2", "Approved", 20⟩]
    (by decide) (by decide) (by decide) rfl
  refine ⟨rfl, h.1, h.2.1 _ (by simp), h.2.1 _ (by simp), ?_⟩
  exact (List.pairwise_cons.mp h.2.2).1 _ (by simp)

/-- ModelRegistry.select_versioned_packages (model_registry.py lines
185-204): for each requested version in order, append every collected
package carrying that version. -/
def select_versioned_packages (model_packages : List ModelPackage)
    (model_package_versions : List Nat) : List ModelPackage :=
  match model_package_versions with
  | [] => []
  | v :: rest =>
    model_packages.filter (fun p => p.version == v)
      ++ select_versioned_packages model_packages rest

/-- Pagination loop of get_versioned_approved_packages (model_registry.py
lines 152-164): keep fetching while fewer matches than distinct requested
versions are collected and a NextToken remains. -/
def collectVersioned (uniq : List Nat) (acc : List ModelPackage) :
    List (List ModelPackage) → List ModelPackage
  | [] => acc
  | p :: rest =>
    if acc.length < uniq.length then
      collectVersioned uniq (acc ++ select_versioned_packages p uniq) rest
    else acc

/-- Matches accumulated by get_versioned_approved_packages before the
emptiness check; the Python set of requested versions is modelled by
dedup (only membership and cardinality of the set are ever used). -/
def collectedVersioned (versions : List Nat) (pages : List (List ModelPackage)) :
    List ModelPackage :=
  match pages with
  | [] => []
  | p :: rest =>
    collectVersioned versions.dedup (select_versioned_packages p versions.dedup) rest

/-- ModelRegistry.get_versioned_approved_packages (model_registry.py lines
119-183). -/
def get_versioned_approved_packages (groupName : String) (versions : List Nat)
    (pages : List (List ModelPackage)) : Except String (List ModelPackage) :=
  if (collectedVersioned versions pages).length = 0 then
    Except.error ("No approved packages found for: " ++ groupName)
  else
    Except.ok (select_versioned_packages (collectedVersioned versions pages) versions)

theorem countV_nil (v : Nat) : countV [] v = 0 := rfl

theorem countV_cons (q : ModelPackage) (l : List ModelPackage) (v : Nat) :
    countV (q :: l) v = (if q.version = v then 1 else 0) + countV l v := by
  by_cases h : q.version = v <;>
    simp [countV, List.filter_cons, h, Nat.add_comm]

theorem countV_append (a b : List ModelPackage) (v : Nat) :
    countV (a ++ b) v = countV a v + countV b v := by
  simp [countV, List.filter_append]

/-- Filtering to one version then counting another only counts when the two
versions agree. -/
theorem countV_filter_same (l : List ModelPackage) (u v : Nat) :
    countV (l.filter fun p => p.version == u) v = if v = u then countV l v else 0 := by
  induction l with
  | nil => simp [countV]
  | cons q t ih =>
    by_cases hq : q.version = u
    · rw [List.filter_cons_of_pos (by simp [hq]), countV_cons, ih]
      by_cases hv : v = u
      · subst hv; simp [countV_cons, hq]
      · simp [hv, hq]; omega
    · rw [List.filter_cons_of_neg (by simp [hq])]
      rw [ih]
      by_cases hv : v = u
      · subst hv; simp [countV_cons, fun h : q.version = v => hq h]
      · simp [hv]

/-- Membership in a selection implies a requested version and membership in
the underlying collection. -/
theorem mem_of_mem_select (q : ModelPackage) (l : List ModelPackage)
    (versions : List Nat) (h : q ∈ select_versioned_packages l versions) :
    q.version ∈ versions ∧ q ∈ l := by
  induction versions with
  | nil => simp [select_versioned_packages] at h
  | cons v rest ih =>
    rw [select_versioned_packages, List.mem_append] at h
    rcases h with h | h
    · obtain ⟨hq, hv⟩ := List.mem_filter.mp h
      refine ⟨?_, hq⟩
      simp only [beq_iff_eq] at hv
      simp [hv]
    · obtain ⟨h1, h2⟩ := ih h
      exact ⟨List.mem_cons_of_mem _ h1, h2⟩

/-- Counting one version inside a selection over a duplicate-free version
set: the count survives exactly when the version was requested. -/
theorem countV_select (l : List ModelPackage) (uniq : List Nat)
    (hnd : uniq.Nodup) (v : Nat) :
    countV (select_versioned_packages l uniq) v
      = if v ∈ uniq then countV l v else 0 := by
  induction uniq with
  | nil => simp [select_versioned_packages, countV]
  | cons u rest ih =>
    have hu : u ∉ rest := (List.nodup_cons.mp hnd).1
    have hnd2 : rest.Nodup := (List.nodup_cons.mp hnd).2
    rw [select_versioned_packages, countV_append, ih hnd2, countV_filter_same]
    by_cases hv : v = u
    · subst hv
      simp [hu]
    · simp [hv]

theorem sum_map_add {α : Type} (l : List α) (f g : α → Nat) :
    (l.map fun a => f a + g a).sum = (l.map f).sum + (l.map g).sum := by
  induction l with
  | nil => simp
  | cons a t ih => simp [ih]; omega

theorem sum_map_le {α : Type} (l : List α) (f g : α → Nat)
    (h : ∀ a ∈ l, f a ≤ g a) :
    (l.map f).sum ≤ (l.map g).sum := by
  induction l with
  | nil => simp
  | cons a t ih =>
    simp only [List.map_cons, List.sum_cons]
    have h1 := h a (by simp)
    have h2 := ih (fun b hb => h b (by simp [hb]))
    omega

theorem sum_map_eq_pointwise {α : Type} (l : List α) (f g : α → Nat)
    (hle : ∀ a ∈ l, f a ≤ g a) (hsum : (l.map f).sum = (l.map g).sum) :
    ∀ a ∈ l, f a = g a := by
  induction l with
  | nil => simp
  | cons a t ih =>
    simp only [List.map_cons, List.sum_cons] at hsum
    have h1 := hle a (by simp)
    have h2 := sum_map_le t f g (fun b hb => hle b (by simp [hb]))
    intro b hb
    rcases List.mem_cons.mp hb with hb | hb
    · subst hb; omega
    · exact ih (fun c hc => hle c (by simp [hc])) (by omega) b hb

theorem sum_map_one {α : Type} (l : List α) :
    (l.map fun _ => 1).sum = l.length := by
  induction l with
  | nil => simp
  | cons a t ih => simp [ih]; omega

theorem sum_indicator_zero (x : Nat) (l : List Nat) (hx : x ∉ l) :
    (l.map fun u => if x = u then 1 else 0).sum = 0 := by
  induction l with
  | nil => simp
  | cons u rest ih =>
    have h1 : ¬x = u := fun hh => hx (by simp [hh])
    have h2 : x ∉ rest := fun hh => hx (by simp [hh])
    simp [h1, ih h2]

theorem sum_indicator_one (x : Nat) (l : List Nat) (hnd : l.Nodup) (hx : x ∈ l) :
    (l.map fun u => if x = u then 1 else 0).sum = 1 := by
  induction l with
  | nil => simp at hx
  | cons u rest ih =>
    rcases List.mem_cons.mp hx with h | h
    · have hnmem : x ∉ rest := by
        rw [h]; exact (List.nodup_cons.mp hnd).1
      simp [h, sum_indicator_zero u rest (h ▸ hnmem)]
    · have hne : ¬x = u := fun hh => (List.nodup_cons.mp hnd).1 (hh ▸ h)
      simp [hne, ih (List.nodup_cons.mp hnd).2 h]

/-- On a collection whose versions all lie in a duplicate-free version set,
the per-version counts add up to the collection size. -/
theorem sum_countV_eq_length (uniq : List Nat) (hnd : uniq.Nodup)
    (l : List ModelPackage) (hmem : ∀ q ∈ l, q.version ∈ uniq) :
    (uniq.map (countV l)).sum = l.length := by
  induction l with
  | nil =>
    have h0 : List.map (countV []) uniq = List.map (fun _ => (0 : Nat)) uniq :=
      List.map_congr_left (fun u _ => countV_nil u)
    rw [h0]
    simp
  | cons q t ih =>
    have hq := hmem q (by simp)
    have ht := ih (fun p hp => hmem p (by simp [hp]))
    have hcount : (uniq.map (countV (q :: t))).sum
        = (uniq.map fun u => (if q.version = u then 1 else 0) + countV t u).sum := by
      congr 1
      exact List.map_congr_left (fun u _ => countV_cons q t u)
    rw [hcount, sum_map_add, ht, List.length_cons]
    rw [sum_indicator_one q.version uniq hnd hq]
    omega

/-- Main invariant of the versioned pagination loop: when every requested
version occurs at most total-many times upstream with total at most one,
the loop ends holding exactly total-many matches of each requested version,
whether it stops on exhaustion or on having collected enough. -/
theorem collectVersioned_count (uniq : List Nat) (hnd : uniq.Nodup)
    (total : Nat → Nat) (htot : ∀ u ∈ uniq, total u ≤ 1) :
    ∀ (pages : List (List ModelPackage)) (acc : List ModelPackage),
      (∀ q ∈ acc, q.version ∈ uniq) →
      (∀ u ∈ uniq, countV acc u + countV pages.flatten u = total u) →
      ∀ u ∈ uniq, countV (collectVersioned uniq acc pages) u = total u := by
  intro pages
  induction pages with
  | nil =>
    intro acc hmem hinv u hu
    have h := hinv u hu
    simpa [collectVersioned, countV] using h
  | cons p rest ih =>
    intro acc hmem hinv u hu
    rw [collectVersioned]
    split
    · refine ih (acc ++ select_versioned_packages p uniq) ?_ ?_ u hu
      · intro q hq
        rcases List.mem_append.mp hq with h | h
        · exact hmem q h
        · exact (mem_of_mem_select q p uniq h).1
      · intro w hw
        have h1 := hinv w hw
        rw [List.flatten_cons, countV_append] at h1
        rw [countV_append, countV_select p uniq hnd w, if_pos hw]
        omega
    · have hstop : uniq.length ≤ acc.length := Nat.le_of_not_lt (by assumption)
      have hpt : ∀ w ∈ uniq, countV acc w ≤ total w := by
        intro w hw
        have := hinv w hw
        omega
      have hsacc : (uniq.map (countV acc)).sum = acc.length :=
        sum_countV_eq_length uniq hnd acc hmem
      have h1 : (uniq.map (countV acc)).sum ≤ (uniq.map total).sum :=
        sum_map_le uniq _ _ hpt
      have h2 : (uniq.map total).sum ≤ (uniq.map fun _ => 1).sum :=
        sum_map_le uniq _ _ htot
      rw [sum_map_one] at h2
      have heq : (uniq.map (countV acc)).sum = (uniq.map total).sum := by omega
      exact sum_map_eq_pointwise uniq _ _ hpt heq u hu

/-- The matches collected across all pages carry each requested version
exactly as often as the whole upstream source does, provided versions are
unique upstream (the registry invariant). -/
theorem collectedVersioned_count (versions : List Nat)
    (pages : List (List ModelPackage))
    (hle : ∀ v ∈ versions, countV pages.flatten v ≤ 1) :
    ∀ v ∈ versions, countV (collectedVersioned versions pages) v
      = countV pages.flatten v := by
  intro v hv
  have hv2 : v ∈ versions.dedup := List.mem_dedup.mpr hv
  cases pages with
  | nil => simp [collectedVersioned, countV]
  | cons p rest =>
    refine collectVersioned_count versions.dedup versions.nodup_dedup
      (fun u => countV (p :: rest).flatten u)
      (fun u hu => hle u (List.mem_dedup.mp hu)) rest
      (select_versioned_packages p versions.dedup) ?_ ?_ v hv2
    · intro q hq
      exact (mem_of_mem_select q p versions.dedup hq).1
    · intro u hu
      rw [countV_select p versions.dedup versions.nodup_dedup u, if_pos hu]
      show countV p u + countV rest.flatten u = countV (p ++ rest.flatten) u
      rw [countV_append]

/-- A list of packages holds some package of version v exactly when its
count of version v is nonzero. -/
theorem any_version_iff (l : List ModelPackage) (v : Nat) :
    (l.any fun q => q.version == v) = true ↔ countV l v ≠ 0 := by
  rw [List.any_eq_true]
  constructor
  · rintro ⟨q, hq, hqv⟩ h0
    have hmem : q ∈ l.filter (fun p => p.version == v) := List.mem_filter.mpr ⟨hq, hqv⟩
    rw [countV, List.length_eq_zero] at h0
    rw [h0] at hmem
    simp at hmem
  · intro h0
    have hne : l.filter (fun p => p.version == v) ≠ [] := by
      intro hnil
      exact h0 (by simp [countV, hnil])
    obtain ⟨q, hq⟩ := List.exists_mem_of_ne_nil _ hne
    obtain ⟨h1, h2⟩ := List.mem_filter.mp hq
    exact ⟨q, h1, h2⟩

/-- When every requested version occurs at most once in the collection, the
selection flattens to one package per found version, in request order; its
version sequence is the request list filtered to found versions. -/
theorem select_map_version (coll : List ModelPackage) (versions : List Nat)
    (h : ∀ v ∈ versions, countV coll v ≤ 1) :
    (select_versioned_packages coll versions).map (fun p => p.version)
      = versions.filter (fun v => coll.any fun q => q.version == v) := by
  induction versions with
  | nil => simp [select_versioned_packages]
  | cons v rest ih =>
    have hv := h v (by simp)
    have hrest := ih (fun u hu => h u (by simp [hu]))
    rw [select_versioned_packages, List.map_append, hrest, List.filter_cons]
    cases h0 : coll.filter (fun p => p.version == v) with
    | nil =>
      have hany : (coll.any fun q => q.version == v) = false := by
        rw [Bool.eq_false_iff]
        intro htrue
        exact (any_version_iff coll v).mp htrue (by simp [countV, h0])
      simp [h0, hany]
    | cons q t =>
      have hc : countV coll v = (q :: t).length := by rw [countV, h0]
      have ht : t = [] := by
        rw [List.length_cons] at hc
        exact List.eq_nil_of_length_eq_zero (by omega)
      subst ht
      have hq_mem : q ∈ coll.filter (fun p => p.version == v) := by
        rw [h0]; simp
      have hqv : q.version = v := by
        have := (List.mem_filter.mp hq_mem).2
        simpa using this
      have hany : (coll.any fun p => p.version == v) = true :=
        (any_version_iff coll v).mpr (by simp [countV, h0])
      simp [h0, hany, hqv]

/-- Characterization of get_versioned_approved_packages: under the registry
invariant that each requested version exists at most once upstream, and with
at least one requested version present, the call succeeds and the version
sequence of the result is the request list restricted to present versions,
order and duplicates of the request preserved. -/
theorem getVersioned_map_spec (groupName : String) (versions : List Nat)
    (pages : List (List ModelPackage))
    (hle : ∀ v ∈ versions, countV pages.flatten v ≤ 1)
    (hsome : ∃ v ∈ versions, countV pages.flatten v = 1) :
    (get_versioned_approved_packages groupName versions pages).map
        (fun res => res.map fun p => p.version)
      = Except.ok (versions.filter fun v => pages.flatten.any fun q => q.version == v) := by
  obtain ⟨v0, hv0, hc0⟩ := hsome
  have hcoll := collectedVersioned_count versions pages hle
  have hne : (collectedVersioned versions pages).length ≠ 0 := by
    intro hlen
    have h1 : countV (collectedVersioned versions pages) v0 = 1 := by
      rw [hcoll v0 hv0, hc0]
    rw [List.eq_nil_of_length_eq_zero hlen] at h1
    simp [countV] at h1
  rw [get_versioned_approved_packages, if_neg (by simpa using hne)]
  rw [Except.map]
  have hsel := select_map_version (collectedVersioned versions pages) versions
    (fun v hv => by rw [hcoll v hv]; exact hle v hv)
  rw [hsel]
  congr 1
  apply List.filter_congr
  intro v hv
  have hcv := hcoll v hv
  by_cases h1 : countV pages.flatten v = 0
  · have ha : (pages.flatten.any fun q => q.version == v) = false := by
      rw [Bool.eq_false_iff]
      intro htrue
      exact (any_version_iff pages.flatten v).mp htrue h1
    have hb : ((collectedVersioned versions pages).any fun q => q.version == v) = false := by
      rw [Bool.eq_false_iff]
      intro htrue
      exact (any_version_iff _ v).mp htrue (by omega)
    rw [ha, hb]
  · have ha : (pages.flatten.any fun q => q.version == v) = true :=
      (any_version_iff pages.flatten v).mpr h1
    have hb : ((collectedVersioned versions pages).any fun q => q.version == v) = true :=
      (any_version_iff _ v).mpr (by omega)
    rw [ha, hb]

/-- C10: when some but not necessarily all requested versions exist among
the approved packages, the call succeeds and silently omits the missing
versions, returning the found versions in request order; the not-found
error occurs only when no requested version exists at all (here the
presence of one requested version already forces success). -/
theorem getVersioned_missing_ok (groupName : String) (versions : List Nat)
    (pages : List (List ModelPackage))
    (hle : ∀ v ∈ versions, countV pages.flatten v ≤ 1)
    (hsome : ∃ v ∈ versions, countV pages.flatten v = 1) :
    (get_versioned_approved_packages groupName versions pages).map
        (fun res => res.map fun p => p.version)
      = Except.ok (versions.filter fun v => pages.flatten.any fun q => q.version == v) :=
  getVersioned_map_spec groupName versions pages hle hsome

/-- Witness for C10: requesting versions 1 and 5 of a group holding only
version 1 returns just the version-1 package without raising. -/
theorem getVersioned_missing_ok_witness :
    (get_versioned_approved_packages "group" [1, 5]
        [[⟨1, "arn-1", "Approved", 10⟩]]).map (fun res => res.map fun p => p.version)
      = Except.ok [1] := by
  have h := getVersioned_missing_ok "group" [1, 5] [[⟨1, "arn-1", "Approved", 10⟩]]
    (by decide) (by decide)
  simpa using h

/-- C2 as amended: when the request list is nonempty and every requested
version occurs exactly once among the group's approved packages, the result
has exactly the requested version sequence, order and duplicates preserved. -/
theorem getVersioned_all_found (groupName : String) (versions : List Nat)
    (pages : List (List ModelPackage))
    (hne : versions ≠ [])
    (h1 : ∀ v ∈ versions, countV pages.flatten v = 1) :
    (get_versioned_approved_packages groupName versions pages).map
        (fun res => res.map fun p => p.version)
      = Except.ok versions := by
  have hle : ∀ v ∈ versions, countV pages.flatten v ≤ 1 :=
    fun v hv => Nat.le_of_eq (h1 v hv)
  have hsome : ∃ v ∈ versions, countV pages.flatten v = 1 := by
    obtain ⟨v, hv⟩ := List.exists_mem_of_ne_nil versions hne
    exact ⟨v, hv, h1 v hv⟩
  rw [getVersioned_map_spec groupName versions pages hle hsome]
  congr 1
  rw [List.filter_eq_self]
  intro v hv
  exact (any_version_iff pages.flatten v).mpr (by rw [h1 v hv]; omega)

/-- Witness for the amended C2: requesting [2, 3, 2] against a group holding
versions 1, 2, 3 yields the version sequence [2, 3, 2]. -/
theorem getVersioned_all_found_witness :
    (get_versioned_approved_packages "group" [2, 3, 2]
        [[⟨1, "arn-1", "Approved", 10⟩, ⟨2, "arn-2", "Approved", 20⟩,
          ⟨3, "arn-3", "Approved", 30⟩]]).map (fun res => res.map fun p => p.version)
      = Except.ok [2, 3, 2] :=
  getVersioned_all_found "group" [2, 3, 2]
    [[⟨1, "arn-1", "Approved", 10⟩, ⟨2, "arn-2", "Approved", 20⟩,
      ⟨3, "arn-3", "Approved", 30⟩]] (by decide) (by decide)

/-- Counterexample to C2 as stated: requesting versions [1, 2] of a group
holding only version 1 returns a single package, so the result is strictly
shorter than the request and result positions cannot carry the requested
versions. -/
theorem getVersioned_length_cex :
    (get_versioned_approved_packages "group" [1, 2]
        [[⟨1, "arn-1", "Approved", 10⟩]]).map (fun res => res.map fun p => p.version)
      = Except.ok [1]
    ∧ ([1] : List Nat) ≠ [1, 2] := by
  refine ⟨?_, by decide⟩
  rfl

/-- A botocore ClientError as observed through e.response of the handlers. -/
structure ClientError where
  code : String
  message : String
  deriving Repr, DecidableEq

/-- First value bound to a key in an association list (provider-side state
is keyed by resource name). -/
def lookupKey {α : Type} : List (String × α) → String → Option α
  | [], _ => none
  | r :: rest, name => if r.1 = name then some r.2 else lookupKey rest name

/-- Set the enabled flag of every provisioned rule carrying the name. -/
def setRule : List (String × Bool) → String → Bool → List (String × Bool)
  | [], _, _ => []
  | r :: rest, name, b => (r.1, if r.1 = name then b else r.2) :: setRule rest name b

/-- CloudWatch Events provider state: the provisioned rules with their
enabled flags, plus injected per-rule faults standing for arbitrary
provider errors raised by enable_rule and disable_rule. -/
structure EventsState where
  rules : List (String × Bool)
  faults : List (String × ClientError)
  deriving Repr, DecidableEq

/-- CloudWatch Events enable_rule and disable_rule: an injected fault is
raised as is; a rule that is not provisioned raises
ResourceNotFoundException; otherwise the rule's flag is set (setting an
already-set flag is accepted). -/
def callRuleApi (s : EventsState) (name : String) (enable : Bool) :
    Except ClientError EventsState :=
  match lookupKey s.faults name with
  | some e => Except.error e
  | none =>
    match lookupKey s.rules name with
    | none => Except.error ⟨"ResourceNotFoundException", "Rule " ++ name ++ " does not exist."⟩
    | some _ => Except.ok { s with rules := setRule s.rules name enable }

/-- update_cloudwatch_rule (lambda_pipeline_change.py lines 24-41): a
ResourceNotFoundException is logged and swallowed; any other ClientError is
re-raised as an Exception carrying the provider message. -/
def update_cloudwatch_rule (s : EventsState) (rule_name : String) (enable : Bool) :
    Except String EventsState :=
  match callRuleApi s rule_name enable with
  | Except.ok s2 => Except.ok s2
  | Except.error e =>
    if e.code = "ResourceNotFoundException" then Except.ok s
    else Except.error e.message

/-- The per-rule for loop of update_pipeline_rules: on a raised error the
loop aborts, keeping the state mutated so far and carrying the message. -/
def updateRulesLoop (s : EventsState) (names : List String) (enable : Bool) :
    EventsState × Option String :=
  match names with
  | [] => (s, none)
  | n :: rest =>
    match update_cloudwatch_rule s n enable with
    | Except.ok s2 => updateRulesLoop s2 rest enable
    | Except.error m => (s, some m)

/-- Environment variables of the gate lambda. -/
structure GateEnv where
  codePipelineName : String
  driftRule : String
  scheduleRule : String
  deriving Repr, DecidableEq

/-- The controlled rule set of update_pipeline_rules (lines 61 and 76):
literally the drift rule followed by the schedule rule. -/
def controlledRules (env : GateEnv) : List String :=
  [env.driftRule, env.scheduleRule]

/-- Observable result payload of update_pipeline_rules. -/
structure GatePayload where
  action : String
  status : Option String
  deriving Repr, DecidableEq

/-- Full gate-visible provider state: the CodePipeline Build stage inbound
transition flag plus the CloudWatch Events state. -/
structure PipelineState where
  stageEnabled : Bool
  events : EventsState
  deriving Repr, DecidableEq

/-- update_pipeline_rules (lambda_pipeline_change.py lines 44-78): on
status Executing the stage transition is disabled and the controlled rules
are disabled; on every other status the stage transition is enabled and the
controlled rules are enabled.  A raised rule error propagates, keeping the
side effects already performed. -/
def update_pipeline_rules (env : GateEnv) (status : String) (s : PipelineState) :
    PipelineState × Except String (Nat × GatePayload) :=
  if status = "Executing" then
    let s1 : PipelineState := { s with stageEnabled := false }
    match updateRulesLoop s1.events (controlledRules env) false with
    | (ev, none) => ({ s1 with events := ev }, Except.ok (200, ⟨"Start", none⟩))
    | (ev, some m) => ({ s1 with events := ev }, Except.error m)
  else
    let s1 : PipelineState := { s with stageEnabled := true }
    match updateRulesLoop s1.events (controlledRules env) true with
    | (ev, none) => ({ s1 with events := ev }, Except.ok (200, ⟨"Stop", some status⟩))
    | (ev, some m) => ({ s1 with events := ev }, Except.error m)

/-- Net effect of one fault-free rule update on the events state. -/
def applyRule (s : EventsState) (name : String) (b : Bool) : EventsState :=
  if (lookupKey s.rules name).isSome then { s with rules := setRule s.rules name b }
  else s

theorem applyRule_faults (s : EventsState) (name : String) (b : Bool) :
    (applyRule s name b).faults = s.faults := by
  by_cases h : (lookupKey s.rules name).isSome <;> simp [applyRule, h]

/-- With no injected fault, a rule update always succeeds (not-found is
swallowed) and its state effect is applyRule. -/
theorem update_cloudwatch_rule_noFault (s : EventsState) (n : String) (b : Bool)
    (h : s.faults = []) :
    update_cloudwatch_rule s n b = Except.ok (applyRule s n b) := by
  unfold update_cloudwatch_rule callRuleApi applyRule
  rw [h]
  cases hr : lookupKey s.rules n <;> simp [lookupKey, hr]

theorem lookupKey_setRule (rs : List (String × Bool)) (n : String) (b : Bool)
    (m : String) :
    lookupKey (setRule rs n b) m
      = if m = n then (lookupKey rs m).map (fun _ => b) else lookupKey rs m := by
  induction rs with
  | nil => simp [setRule, lookupKey]
  | cons r rest ih =>
    simp only [setRule, lookupKey]
    by_cases h1 : r.1 = m
    · by_cases h2 : m = n <;> simp [h1, h2]
    · simp [h1, ih]

theorem lookupKey_applyRule (s : EventsState) (n : String) (b : Bool) (m : String) :
    lookupKey (applyRule s n b).rules m
      = if m = n then (lookupKey s.rules m).map (fun _ => b)
        else lookupKey s.rules m := by
  by_cases h : (lookupKey s.rules n).isSome
  · simp [applyRule, h, lookupKey_setRule]
  · by_cases h2 : m = n
    · subst h2
      rw [Option.not_isSome_iff_eq_none] at h
      simp [applyRule, h]
    · simp [applyRule, h, h2]

theorem setRule_setRule_same (rs : List (String × Bool)) (n : String) (b c : Bool) :
    setRule (setRule rs n b) n c = setRule rs n c := by
  induction rs with
  | nil => rfl
  | cons r rest ih =>
    simp only [setRule, ih]
    by_cases h : r.1 = n <;> simp [h]

theorem setRule_comm (rs : List (String × Bool)) (n m : String) (b : Bool) :
    setRule (setRule rs n b) m b = setRule (setRule rs m b) n b := by
  induction rs with
  | nil => rfl
  | cons r rest ih =>
    simp only [setRule, ih]
    by_cases h1 : r.1 = n <;> by_cases h2 : r.1 = m <;> simp [h1, h2]

theorem applyRule_idem (s : EventsState) (n : String) (b : Bool) :
    applyRule (applyRule s n b) n b = applyRule s n b := by
  by_cases h : (lookupKey s.rules n).isSome
  · have h2 : (lookupKey (applyRule s n b).rules n).isSome := by
      rw [lookupKey_applyRule]
      simp only [if_pos rfl]
      obtain ⟨v, hv⟩ := Option.isSome_iff_exists.mp h
      simp [hv]
    rw [applyRule, if_pos h2]
    have hr : (applyRule s n b).rules = setRule s.rules n b := by
      rw [applyRule, if_pos h]
    rw [applyRule, if_pos h]
    simp [hr, setRule_setRule_same]
  · simp [applyRule, h]

theorem applyRule_comm (s : EventsState) (n m : String) (b : Bool) :
    applyRule (applyRule s n b) m b = applyRule (applyRule s m b) n b := by
  by_cases hnm : n = m
  · rw [hnm]
  · have hmn : ¬m = n := fun hh => hnm hh.symm
    by_cases hn : (lookupKey s.rules n).isSome <;>
      by_cases hm : (lookupKey s.rules m).isSome
    · have e1 : applyRule s n b = EventsState.mk (setRule s.rules n b) s.faults := by
        rw [applyRule, if_pos hn]
      have e2 : applyRule s m b = EventsState.mk (setRule s.rules m b) s.faults := by
        rw [applyRule, if_pos hm]
      rw [e1, e2]
      simp only [applyRule, lookupKey_setRule]
      rw [if_neg hmn, if_neg hnm]
      simp [hn, hm, setRule_comm]
    · have e1 : applyRule s n b = EventsState.mk (setRule s.rules n b) s.faults := by
        rw [applyRule, if_pos hn]
      have e3 : applyRule s m b = s := by
        rw [applyRule, if_neg hm]
      have hm4 : ¬(lookupKey (setRule s.rules n b) m).isSome := by
        rw [lookupKey_setRule, if_neg hmn]; exact hm
      rw [e3, e1]
      simp [applyRule, hm4]
    · have e2 : applyRule s m b = EventsState.mk (setRule s.rules m b) s.faults := by
        rw [applyRule, if_pos hm]
      have e3 : applyRule s n b = s := by
        rw [applyRule, if_neg hn]
      have hn4 : ¬(lookupKey (setRule s.rules m b) n).isSome := by
        rw [lookupKey_setRule, if_neg hnm]; exact hn
      rw [e3, e2]
      simp [applyRule, hn4]
    · have e3 : applyRule s n b = s := by
        rw [applyRule, if_neg hn]
      have e4 : applyRule s m b = s := by
        rw [applyRule, if_neg hm]
      simp [e3, e4]

/-- With no injected faults the rule loop never errors and folds applyRule
over the batch. -/
theorem updateRulesLoop_noFault (names : List String) (b : Bool) :
    ∀ s : EventsState, s.faults = [] →
      updateRulesLoop s names b
        = (names.foldl (fun t n => applyRule t n b) s, none) := by
  induction names with
  | nil => intro s h; rfl
  | cons n rest ih =>
    intro s h
    rw [updateRulesLoop, update_cloudwatch_rule_noFault s n b h]
    rw [List.foldl_cons]
    exact ih (applyRule s n b) (by rw [applyRule_faults, h])

/-- Fault-free Executing branch of update_pipeline_rules in closed form. -/
theorem update_executing_noFault (env : GateEnv) (s : PipelineState)
    (h : s.events.faults = []) :
    update_pipeline_rules env "Executing" s
      = (PipelineState.mk false
          (applyRule (applyRule s.events env.driftRule false) env.scheduleRule false),
         Except.ok (200, ⟨"Start", none⟩)) := by
  unfold update_pipeline_rules
  rw [if_pos rfl]
  have hl := updateRulesLoop_noFault (controlledRules env) false s.events h
  simp only [controlledRules, List.foldl_cons, List.foldl_nil] at hl
  simp [controlledRules, hl]

/-- Fault-free non-Executing branch of update_pipeline_rules in closed
form. -/
theorem update_other_noFault (env : GateEnv) (status : String) (s : PipelineState)
    (hst : status ≠ "Executing") (h : s.events.faults = []) :
    update_pipeline_rules env status s
      = (PipelineState.mk true
          (applyRule (applyRule s.events env.driftRule true) env.scheduleRule true),
         Except.ok (200, ⟨"Stop", some status⟩)) := by
  unfold update_pipeline_rules
  rw [if_neg hst]
  have hl := updateRulesLoop_noFault (controlledRules env) true s.events h
  simp only [controlledRules, List.foldl_cons, List.foldl_nil] at hl
  simp [controlledRules, hl]

/-- C6: handling the same Executing event twice leaves the stage-transition
flag and every controlled rule exactly as after handling it once, and the
second handling raises no error (provider accepts re-disabling, modelled by
an empty injected-fault set). -/
theorem gate_executing_idempotent (env : GateEnv) (s : PipelineState)
    (h : s.events.faults = []) :
    update_pipeline_rules env "Executing" (update_pipeline_rules env "Executing" s).1
      = ((update_pipeline_rules env "Executing" s).1,
         Except.ok (200, ⟨"Start", none⟩)) := by
  rw [update_executing_noFault env s h]
  have h2 : (applyRule (applyRule s.events env.driftRule false)
      env.scheduleRule false).faults = [] := by
    rw [applyRule_faults, applyRule_faults, h]
  rw [update_executing_noFault env
    (PipelineState.mk false
      (applyRule (applyRule s.events env.driftRule false) env.scheduleRule false)) h2]
  have key : applyRule (applyRule
        (applyRule (applyRule s.events env.driftRule false) env.scheduleRule false)
        env.driftRule false) env.scheduleRule false
      = applyRule (applyRule s.events env.driftRule false) env.scheduleRule false := by
    rw [show applyRule (applyRule (applyRule s.events env.driftRule false)
          env.scheduleRule false) env.driftRule false
        = applyRule (applyRule (applyRule s.events env.driftRule false)
          env.driftRule false) env.scheduleRule false from
      applyRule_comm _ env.scheduleRule env.driftRule false]
    rw [applyRule_idem, applyRule_idem]
  rw [key]

/-- Concrete gate environment used by the witnesses. -/
def exEnv : GateEnv := ⟨"code-pipeline", "drift-rule", "schedule-rule"⟩

/-- Gate state with the stage transition disabled and both rules disabled. -/
def gateClosedState : PipelineState :=
  ⟨false, ⟨[("drift-rule", false), ("schedule-rule", false)], []⟩⟩

/-- Gate state with the stage transition enabled and both rules enabled. -/
def gateOpenState : PipelineState :=
  ⟨true, ⟨[("drift-rule", true), ("schedule-rule", true)], []⟩⟩

/-- Witness for C6 at a concrete open gate. -/
theorem gate_executing_idempotent_witness :
    update_pipeline_rules exEnv "Executing"
        (update_pipeline_rules exEnv "Executing" gateOpenState).1
      = ((update_pipeline_rules exEnv "Executing" gateOpenState).1,
         Except.ok (200, ⟨"Start", none⟩)) :=
  gate_executing_idempotent exEnv gateOpenState rfl

/-- Counterexample to C3 as stated: a Stopping event on a closed gate is not
a no-op — the handler enables the stage transition (and the rules). -/
theorem gate_stopping_not_noop_cex :
    (update_pipeline_rules exEnv "Stopping" gateClosedState).1 ≠ gateClosedState
    ∧ (update_pipeline_rules exEnv "Stopping" gateClosedState).1.stageEnabled = true
    ∧ gateClosedState.stageEnabled = false := by
  refine ⟨?_, rfl, rfl⟩
  intro hcontra
  have : (update_pipeline_rules exEnv "Stopping" gateClosedState).1.stageEnabled
      = gateClosedState.stageEnabled := by rw [hcontra]
  simp [gateClosedState] at this
  exact absurd this (by decide)

/-- C3 as amended: a status that is not Executing (Stopping included) takes
the gate-opening branch — the stage transition is enabled and every
provisioned controlled rule is enabled, rules outside the controlled set
are untouched, and the call reports action Stop with the status. -/
theorem gate_other_status_opens (env : GateEnv) (status : String)
    (s : PipelineState) (hst : status ≠ "Executing") (h : s.events.faults = []) :
    (update_pipeline_rules env status s).2 = Except.ok (200, ⟨"Stop", some status⟩)
    ∧ (update_pipeline_rules env status s).1.stageEnabled = true
    ∧ (∀ n, (n = env.driftRule ∨ n = env.scheduleRule) →
        ∀ v, lookupKey s.events.rules n = some v →
          lookupKey (update_pipeline_rules env status s).1.events.rules n = some true)
    ∧ (∀ n, n ≠ env.driftRule → n ≠ env.scheduleRule →
        lookupKey (update_pipeline_rules env status s).1.events.rules n
          = lookupKey s.events.rules n) := by
  rw [update_other_noFault env status s hst h]
  refine ⟨rfl, rfl, ?_, ?_⟩
  · intro n hn v hv
    rw [lookupKey_applyRule, lookupKey_applyRule]
    by_cases h2 : n = env.scheduleRule
    · rw [if_pos h2]
      by_cases h3 : n = env.driftRule
      · rw [if_pos h3, hv]; rfl
      · rw [if_neg h3, hv]; rfl
    · rw [if_neg h2]
      rcases hn with hn | hn
      · rw [if_pos hn, hv]; rfl
      · exact absurd hn h2
  · intro n h1 h2
    rw [lookupKey_applyRule, lookupKey_applyRule]
    simp [h1, h2]

/-- Witness for the amended C3 at a concrete closed gate. -/
theorem gate_other_status_opens_witness :
    (update_pipeline_rules exEnv "Stopping" gateClosedState).2
      = Except.ok (200, ⟨"Stop", some "Stopping"⟩)
    ∧ (update_pipeline_rules exEnv "Stopping" gateClosedState).1.stageEnabled = true
    ∧ lookupKey (update_pipeline_rules exEnv "Stopping"
        gateClosedState).1.events.rules "drift-rule" = some true := by
  have h := gate_other_status_opens exEnv "Stopping" gateClosedState
    (by decide) rfl
  exact ⟨h.1, h.2.1, h.2.2.1 "drift-rule" (Or.inl rfl) false rfl⟩

/-- Shared helper: a rule update whose injected fault is not the not-found
code raises that fault's message. -/
theorem update_cloudwatch_rule_fault (s : EventsState) (n : String) (b : Bool)
    (e : ClientError) (hf : lookupKey s.faults n = some e)
    (hc : e.code ≠ "ResourceNotFoundException") :
    update_cloudwatch_rule s n b = Except.error e.message := by
  unfold update_cloudwatch_rule callRuleApi
  rw [hf]
  simp [hc]

/-- C8: a not-found error during a rule update is treated as success for
that rule and the batch continues with the remaining rules; any other
provider error aborts the rule loop at once and propagates out of
update_pipeline_rules as the raised provider message. -/
theorem gate_rule_error_handling (s : EventsState) (n : String) (b : Bool)
    (rest : List String) :
    (lookupKey s.faults n = none → lookupKey s.rules n = none →
      update_cloudwatch_rule s n b = Except.ok s
      ∧ updateRulesLoop s (n :: rest) b = updateRulesLoop s rest b)
    ∧ (∀ e : ClientError, lookupKey s.faults n = some e →
        e.code ≠ "ResourceNotFoundException" →
        update_cloudwatch_rule s n b = Except.error e.message
        ∧ updateRulesLoop s (n :: rest) b = (s, some e.message))
    ∧ (∀ (env : GateEnv) (ps : PipelineState) (e : ClientError) (status : String),
        env.driftRule = n → ps.events = s →
        lookupKey s.faults n = some e →
        e.code ≠ "ResourceNotFoundException" →
        (update_pipeline_rules env status ps).2 = Except.error e.message) := by
  refine ⟨?_, ?_, ?_⟩
  · intro hf hr
    have hcall : update_cloudwatch_rule s n b = Except.ok s := by
      unfold update_cloudwatch_rule callRuleApi
      rw [hf, hr]
      simp
    exact ⟨hcall, by rw [updateRulesLoop, hcall]⟩
  · intro e hf hcode
    have hcall := update_cloudwatch_rule_fault s n b e hf hcode
    exact ⟨hcall, by rw [updateRulesLoop, hcall]⟩
  · intro env ps e status hdr hev hf hcode
    have hloop : ∀ bb : Bool, updateRulesLoop ps.events (controlledRules env) bb
        = (ps.events, some e.message) := by
      intro bb
      rw [controlledRules, hdr, updateRulesLoop, hev,
        update_cloudwatch_rule_fault s n bb e hf hcode]
    unfold update_pipeline_rules
    by_cases hst : status = "Executing"
    · rw [if_pos hst]
      simp [hloop false]
    · rw [if_neg hst]
      simp [hloop true]

/-- Witness for C8: an absent rule is skipped as success, while a throttling
fault on the first rule aborts the batch with that message. -/
theorem gate_rule_error_handling_witness :
    update_cloudwatch_rule ⟨[("schedule-rule", true)], []⟩ "drift-rule" true
      = Except.ok ⟨[("schedule-rule", true)], []⟩
    ∧ updateRulesLoop
        ⟨[("drift-rule", true)], [("drift-rule", ⟨"ThrottlingException", "Rate exceeded"⟩)]⟩
        ["drift-rule", "schedule-rule"] true
      = (⟨[("drift-rule", true)],
          [("drift-rule", ⟨"ThrottlingException", "Rate exceeded"⟩)]⟩,
         some "Rate exceeded") := by
  refine ⟨((gate_rule_error_handling ⟨[("schedule-rule", true)], []⟩
    "drift-rule" true ["schedule-rule"]).1 rfl rfl).1, ?_⟩
  exact ((gate_rule_error_handling
    ⟨[("drift-rule", true)], [("drift-rule", ⟨"ThrottlingException", "Rate exceeded"⟩)]⟩
    "drift-rule" true ["schedule-rule"]).2.1
    ⟨"ThrottlingException", "Rate exceeded"⟩ rfl (by decide)).2

/-- One SageMaker call made by check_pipeline, with its arguments. -/
inductive SMCall where
  | start (pipelineName : String) (clientRequestToken : String)
  | describe (arn : String)
  deriving Repr, DecidableEq

/-- Failure details passed to put_job_failure_result. -/
structure FailureDetails where
  failType : String
  message : String
  externalExecutionId : Option String
  deriving Repr, DecidableEq

/-- One report sent to CodePipeline: a terminal success with output
variables, a success carrying only a continuation token (re-arm), or a
terminal failure. -/
inductive Report where
  | successOutputs (jobId : String) (status : String) (arn : String)
  | continuation (jobId : String) (token : String)
  | failure (jobId : String) (details : FailureDetails)
  deriving Repr, DecidableEq

/-- Body of the value returned by check_pipeline (the result dict). -/
inductive RunnerBody where
  | jobFailed (message : String) (externalExecutionId : Option String)
  | outputs (status : String) (arn : String)
  | continuation (arn : String)
  deriving Repr, DecidableEq

/-- SageMaker provider behaviour for one invocation: the outcome of
start_pipeline_execution and of describe_pipeline_execution. -/
structure SMProvider where
  startResult : Except ClientError String
  describeResult : String → Except ClientError String

instance instDecEqExcept {e a : Type} [DecidableEq e] [DecidableEq a] :
    DecidableEq (Except e a) := fun x y =>
  match x, y with
  | Except.ok u, Except.ok v =>
    if h : u = v then isTrue (by rw [h])
    else isFalse (fun hh => h (Except.ok.inj hh))
  | Except.error u, Except.error v =>
    if h : u = v then isTrue (by rw [h])
    else isFalse (fun hh => h (Except.error.inj hh))
  | Except.ok _, Except.error _ => isFalse (fun hh => Except.noConfusion hh)
  | Except.error _, Except.ok _ => isFalse (fun hh => Except.noConfusion hh)

/-- Everything observable about one check_pipeline invocation: the SageMaker
calls made, the CodePipeline reports sent, and the returned value (an
error value models an exception escaping the handler). -/
structure RunnerOutput where
  calls : List SMCall
  reports : List Report
  result : Except String (Nat × RunnerBody)
  deriving Repr, DecidableEq

/-- Shared ClientError branch of check_pipeline (lambda_start_pipeline.py
lines 77-89): build the failure payload, report it unless the error is
InvalidJobStateException, and return 500 with the payload — the error is
not re-raised. -/
def clientErrorBranch (jobId : String) (e : ClientError) (calls : List SMCall) :
    RunnerOutput :=
  if e.code = "InvalidJobStateException" then
    ⟨calls, [], Except.ok (500, RunnerBody.jobFailed e.message none)⟩
  else
    ⟨calls, [Report.failure jobId ⟨"JobFailed", e.message, none⟩],
     Except.ok (500, RunnerBody.jobFailed e.message none)⟩

/-- check_pipeline (lambda_start_pipeline.py lines 21-92).  Without a
continuation token the execution is started with ClientRequestToken equal
to the job id and the job re-armed; with one, the execution is described
and Failed/Stopped report failure, Executing/Succeeded report success with
output variables, and anything else re-arms with the same arn. -/
def check_pipeline (sm : SMProvider) (jobId pipelineName : String)
    (continuationToken : Option String) : RunnerOutput :=
  match continuationToken with
  | none =>
    match sm.startResult with
    | Except.error e => clientErrorBranch jobId e [SMCall.start pipelineName jobId]
    | Except.ok arn =>
      ⟨[SMCall.start pipelineName jobId], [Report.continuation jobId arn],
       Except.ok (202, RunnerBody.continuation arn)⟩
  | some arn =>
    match sm.describeResult arn with
    | Except.error e => clientErrorBranch jobId e [SMCall.describe arn]
    | Except.ok status =>
      if status = "Failed" ∨ status = "Stopped" then
        ⟨[SMCall.describe arn],
         [Report.failure jobId ⟨"JobFailed", "Pipeline Status is " ++ status, some arn⟩],
         Except.ok (400, RunnerBody.jobFailed ("Pipeline Status is " ++ status) (some arn))⟩
      else if status = "Executing" ∨ status = "Succeeded" then
        ⟨[SMCall.describe arn], [Report.successOutputs jobId status arn],
         Except.ok (200, RunnerBody.outputs status arn)⟩
      else
        ⟨[SMCall.describe arn], [Report.continuation jobId arn],
         Except.ok (202, RunnerBody.continuation arn)⟩

/-- C4: the three POLLING outcomes.  Failed/Stopped report the structured
failure payload and return the terminal 400 failure; Executing/Succeeded
report success with the Status and PipelineExecutionArn output variables
and return the terminal 200 success; any other status re-arms with a
success-with-continuation carrying the same arn. -/
theorem checkPipeline_polling (sm : SMProvider) (jobId pipelineName arn status : String)
    (h : sm.describeResult arn = Except.ok status) :
    (status = "Failed" ∨ status = "Stopped" →
      check_pipeline sm jobId pipelineName (some arn) =
        ⟨[SMCall.describe arn],
         [Report.failure jobId ⟨"JobFailed", "Pipeline Status is " ++ status, some arn⟩],
         Except.ok (400, RunnerBody.jobFailed ("Pipeline Status is " ++ status) (some arn))⟩)
    ∧ (status = "Executing" ∨ status = "Succeeded" →
      check_pipeline sm jobId pipelineName (some arn) =
        ⟨[SMCall.describe arn], [Report.successOutputs jobId status arn],
         Except.ok (200, RunnerBody.outputs status arn)⟩)
    ∧ (¬(status = "Failed" ∨ status = "Stopped") →
       ¬(status = "Executing" ∨ status = "Succeeded") →
      check_pipeline sm jobId pipelineName (some arn) =
        ⟨[SMCall.describe arn], [Report.continuation jobId arn],
         Except.ok (202, RunnerBody.continuation arn)⟩) := by
  refine ⟨?_, ?_, ?_⟩
  · intro h1
    rw [check_pipeline, h]
    dsimp only
    rw [if_pos h1]
  · intro h2
    have h1 : ¬(status = "Failed" ∨ status = "Stopped") := by
      rcases h2 with h2 | h2 <;> rintro (h1 | h1) <;> simp [h2] at h1
    rw [check_pipeline, h]
    dsimp only
    rw [if_neg h1, if_pos h2]
  · intro h1 h2
    rw [check_pipeline, h]
    dsimp only
    rw [if_neg h1, if_neg h2]

/-- Witness for C4: the three branches at concrete describe results. -/
theorem checkPipeline_polling_witness :
    check_pipeline ⟨Except.error ⟨"X", "unused"⟩, fun _ => Except.ok "Failed"⟩
        "job-1" "pipe" (some "arn-A") =
      ⟨[SMCall.describe "arn-A"],
       [Report.failure "job-1" ⟨"JobFailed", "Pipeline Status is " ++ "Failed", some "arn-A"⟩],
       Except.ok (400, RunnerBody.jobFailed ("Pipeline Status is " ++ "Failed") (some "arn-A"))⟩
    ∧ check_pipeline ⟨Except.error ⟨"X", "unused"⟩, fun _ => Except.ok "Succeeded"⟩
        "job-1" "pipe" (some "arn-A") =
      ⟨[SMCall.describe "arn-A"], [Report.successOutputs "job-1" "Succeeded" "arn-A"],
       Except.ok (200, RunnerBody.outputs "Succeeded" "arn-A")⟩
    ∧ check_pipeline ⟨Except.error ⟨"X", "unused"⟩, fun _ => Except.ok "Stopping"⟩
        "job-1" "pipe" (some "arn-A") =
      ⟨[SMCall.describe "arn-A"], [Report.continuation "job-1" "arn-A"],
       Except.ok (202, RunnerBody.continuation "arn-A")⟩ := by
  refine ⟨?_, ?_, ?_⟩
  · exact (checkPipeline_polling ⟨Except.error ⟨"X", "unused"⟩, fun _ => Except.ok "Failed"⟩
      "job-1" "pipe" "arn-A" "Failed" rfl).1 (Or.inl rfl)
  · exact (checkPipeline_polling ⟨Except.error ⟨"X", "unused"⟩, fun _ => Except.ok "Succeeded"⟩
      "job-1" "pipe" "arn-A" "Succeeded" rfl).2.1 (Or.inr rfl)
  · exact (checkPipeline_polling ⟨Except.error ⟨"X", "unused"⟩, fun _ => Except.ok "Stopping"⟩
      "job-1" "pipe" "arn-A" "Stopping" rfl).2.2 (by decide) (by decide)

/-- Provider that fails every call with a throttling error. -/
def throttleSM : SMProvider :=
  ⟨Except.error ⟨"ThrottlingException", "Rate exceeded"⟩,
   fun _ => Except.error ⟨"ThrottlingException", "Rate exceeded"⟩⟩

/-- Counterexample to C7 as stated: on a throttling error during start the
handler reports the job failure and then returns the 500 payload normally
(result is an ok value, i.e. no exception escapes), rather than re-raising
the provider error as a generic failure. -/
theorem runner_no_reraise_cex :
    check_pipeline throttleSM "job-1" "pipe" none =
      ⟨[SMCall.start "pipe" "job-1"],
       [Report.failure "job-1" ⟨"JobFailed", "Rate exceeded", none⟩],
       Except.ok (500, RunnerBody.jobFailed "Rate exceeded" none)⟩ := rfl

/-- C7 as amended: an InvalidJobStateException from the provider during
start or describe is swallowed — no report is sent and the handler returns
the 500 payload normally; any other provider error triggers a best-effort
job-failure report carrying the provider message and the handler likewise
returns the 500 payload normally, without re-raising. -/
theorem runner_provider_error_handling (sm : SMProvider)
    (jobId pipelineName : String) (e : ClientError) :
    (sm.startResult = Except.error e →
      (e.code = "InvalidJobStateException" →
        check_pipeline sm jobId pipelineName none =
          ⟨[SMCall.start pipelineName jobId], [],
           Except.ok (500, RunnerBody.jobFailed e.message none)⟩)
      ∧ (e.code ≠ "InvalidJobStateException" →
        check_pipeline sm jobId pipelineName none =
          ⟨[SMCall.start pipelineName jobId],
           [Report.failure jobId ⟨"JobFailed", e.message, none⟩],
           Except.ok (500, RunnerBody.jobFailed e.message none)⟩))
    ∧ (∀ arn, sm.describeResult arn = Except.error e →
      (e.code = "InvalidJobStateException" →
        check_pipeline sm jobId pipelineName (some arn) =
          ⟨[SMCall.describe arn], [],
           Except.ok (500, RunnerBody.jobFailed e.message none)⟩)
      ∧ (e.code ≠ "InvalidJobStateException" →
        check_pipeline sm jobId pipelineName (some arn) =
          ⟨[SMCall.describe arn],
           [Report.failure jobId ⟨"JobFailed", e.message, none⟩],
           Except.ok (500, RunnerBody.jobFailed e.message none)⟩)) := by
  constructor
  · intro hs
    constructor
    · intro hc
      rw [check_pipeline, hs]
      dsimp only
      rw [clientErrorBranch, if_pos hc]
    · intro hc
      rw [check_pipeline, hs]
      dsimp only
      rw [clientErrorBranch, if_neg hc]
  · intro arn hd
    constructor
    · intro hc
      rw [check_pipeline, hd]
      dsimp only
      rw [clientErrorBranch, if_pos hc]
    · intro hc
      rw [check_pipeline, hd]
      dsimp only
      rw [clientErrorBranch, if_neg hc]

/-- Witness for the amended C7: an invalid-job-state error is swallowed
without a report; a throttling error during describe is reported and the
handler returns normally. -/
theorem runner_provider_error_handling_witness :
    check_pipeline
        ⟨Except.error ⟨"InvalidJobStateException", "job expired"⟩,
         fun _ => Except.error ⟨"InvalidJobStateException", "job expired"⟩⟩
        "job-1" "pipe" none =
      ⟨[SMCall.start "pipe" "job-1"], [],
       Except.ok (500, RunnerBody.jobFailed "job expired" none)⟩
    ∧ check_pipeline throttleSM "job-1" "pipe" (some "arn-A") =
      ⟨[SMCall.describe "arn-A"],
       [Report.failure "job-1" ⟨"JobFailed", "Rate exceeded", none⟩],
       Except.ok (500, RunnerBody.jobFailed "Rate exceeded" none)⟩ := by
  constructor
  · exact ((runner_provider_error_handling
      ⟨Except.error ⟨"InvalidJobStateException", "job expired"⟩,
       fun _ => Except.error ⟨"InvalidJobStateException", "job expired"⟩⟩
      "job-1" "pipe" ⟨"InvalidJobStateException", "job expired"⟩).1 rfl).1 rfl
  · exact ((runner_provider_error_handling throttleSM "job-1" "pipe"
      ⟨"ThrottlingException", "Rate exceeded"⟩).2 "arn-A" rfl).2 (by decide)

/-- Provider for a NOT_STARTED invocation: start succeeds with the arn. -/
def startOnlySM (arn : String) : SMProvider :=
  ⟨Except.ok arn, fun _ => Except.error ⟨"InternalError", "describe not expected"⟩⟩

/-- Provider for a POLLING invocation: describe returns the status. -/
def describeOnlySM (status : String) : SMProvider :=
  ⟨Except.error ⟨"InternalError", "start not expected"⟩, fun _ => Except.ok status⟩

/-- Classifier over reports: terminal results versus continuation re-arms. -/
def isTerminal : Report → Bool
  | Report.successOutputs _ _ _ => true
  | Report.failure _ _ => true
  | Report.continuation _ _ => false

/-- All reports sent over a full job lifecycle: a NOT_STARTED invocation,
a POLLING invocation per intermediate status, and a final POLLING
invocation that observes Succeeded. -/
def runnerSequenceReports (jobId pipelineName arn : String)
    (midStatuses : List String) : List Report :=
  (check_pipeline (startOnlySM arn) jobId pipelineName none).reports
    ++ (midStatuses.map fun st =>
        (check_pipeline (describeOnlySM st) jobId pipelineName (some arn)).reports).flatten
    ++ (check_pipeline (describeOnlySM "Succeeded") jobId pipelineName (some arn)).reports

/-- A POLLING invocation observing a non-terminal, non-success status
re-arms with exactly one continuation report. -/
theorem check_mid_reports (jobId pipelineName arn st : String)
    (h1 : ¬(st = "Failed" ∨ st = "Stopped"))
    (h2 : ¬(st = "Executing" ∨ st = "Succeeded")) :
    (check_pipeline (describeOnlySM st) jobId pipelineName (some arn)).reports
      = [Report.continuation jobId arn] := by
  rw [check_pipeline]
  show (match (describeOnlySM st).describeResult arn with
    | Except.error e => clientErrorBranch jobId e [SMCall.describe arn]
    | Except.ok status =>
      if status = "Failed" ∨ status = "Stopped" then _
      else if status = "Executing" ∨ status = "Succeeded" then _
      else _).reports = _
  rw [show (describeOnlySM st).describeResult arn = Except.ok st from rfl]
  dsimp only
  rw [if_neg h1, if_neg h2]

/-- The intermediate polls contribute nothing but continuation re-arms. -/
theorem mid_flatten (jobId pipelineName arn : String) :
    ∀ mids : List String,
      (∀ st ∈ mids, ¬(st = "Failed" ∨ st = "Stopped")
        ∧ ¬(st = "Executing" ∨ st = "Succeeded")) →
      (mids.map fun st =>
        (check_pipeline (describeOnlySM st) jobId pipelineName (some arn)).reports).flatten
      = List.replicate mids.length (Report.continuation jobId arn) := by
  intro mids
  induction mids with
  | nil => intro _; rfl
  | cons st rest ih =>
    intro h
    rw [List.map_cons, List.flatten_cons,
      check_mid_reports jobId pipelineName arn st (h st (by simp)).1 (h st (by simp)).2,
      ih (fun u hu => h u (by simp [hu]))]
    rfl

theorem filter_replicate_continuation (n : Nat) (jobId arn : String) :
    (List.replicate n (Report.continuation jobId arn)).filter isTerminal = [] := by
  induction n with
  | zero => rfl
  | succ k ih => rw [List.replicate_succ, List.filter_cons]; simp [isTerminal, ih]

/-- C9: across a NOT_STARTED invocation, any number of re-arming POLLING
invocations and a final Succeeded POLLING invocation, exactly one terminal
report is sent — the success — and every other report is a continuation
re-arm carrying the same execution arn. -/
theorem runner_single_terminal (jobId pipelineName arn : String)
    (mids : List String)
    (h : ∀ st ∈ mids, ¬(st = "Failed" ∨ st = "Stopped")
      ∧ ¬(st = "Executing" ∨ st = "Succeeded")) :
    (runnerSequenceReports jobId pipelineName arn mids).filter isTerminal
      = [Report.successOutputs jobId "Succeeded" arn]
    ∧ ∀ r ∈ runnerSequenceReports jobId pipelineName arn mids,
        isTerminal r = false → r = Report.continuation jobId arn := by
  have hseq : runnerSequenceReports jobId pipelineName arn mids
      = [Report.continuation jobId arn]
        ++ List.replicate mids.length (Report.continuation jobId arn)
        ++ [Report.successOutputs jobId "Succeeded" arn] := by
    rw [runnerSequenceReports, mid_flatten jobId pipelineName arn mids h]
    rfl
  rw [hseq]
  constructor
  · rw [List.filter_append, List.filter_append,
      filter_replicate_continuation mids.length jobId arn]
    rfl
  · intro r hr hterm
    simp only [List.mem_append, List.mem_singleton, List.mem_replicate] at hr
    rcases hr with (hr | hr) | hr
    · exact hr
    · exact hr.2
    · rw [hr] at hterm
      simp [isTerminal] at hterm

/-- Witness for C9 with one intermediate Stopping poll. -/
theorem runner_single_terminal_witness :
    (runnerSequenceReports "job-1" "pipe" "arn-A" ["Stopping"]).filter isTerminal
      = [Report.successOutputs "job-1" "Succeeded" "arn-A"] :=
  (runner_single_terminal "job-1" "pipe" "arn-A" ["Stopping"] (by decide)).1
